import Mathlib

/-!
Verification of the conductivity-model builder of the resistive-casing
notebook (`src/resistive-casing.ipynb`).

The notebook's own algorithmic content is the construction of a per-cell
conductivity field with localized "gap" overrides (`create_gaps_model`).
Region classification (`model.sigma`, `model.ind_casing`) is delegated to
the external `casingSimulations` library and is therefore modelled from the
spec.  Conductivities and coordinates are embedded as exact rationals.
-/

/-- A sample point (mesh cell center) reduced to the coordinates the code
reads: horizontal radius `r = sqrt(x^2+y^2)` and vertical coordinate `z`
(positive up, depths negative). -/
structure Point where
  r : ℚ
  z : ℚ
deriving DecidableEq

/-- The four spatial regions of the conductivity model. -/
inductive Region where
  | Air
  | CasingWall
  | CasingInterior
  | Background
deriving DecidableEq

/-- Casing geometry parameters (radii of the casing wall band and the
vertical extent of the casing). -/
structure CasingGeometry where
  casing_inner_radius : ℚ
  casing_outer_radius : ℚ
  casing_top_z : ℚ
  casing_bottom_z : ℚ
deriving DecidableEq

/-- The scalar conductivities assigned to the four regions. -/
structure ConductivityAssignment where
  sigma_air : ℚ
  sigma_casing : ℚ
  sigma_inside : ℚ
  sigma_back : ℚ
deriving DecidableEq

/-- Notebook constant: `sigma_air = 1e-8` (S/m). -/
def sigma_air : ℚ := mkRat 1 100000000

/-- Notebook constant: `sigma_back = 1e-2` (S/m). -/
def sigma_back : ℚ := mkRat 1 100

/-- Notebook constant: `sigma_casing = 1e-10` (S/m). -/
def sigma_casing : ℚ := mkRat 1 10000000000

/-- Notebook constant: `sigma_inside = 1` (S/m), the conductivity of the
fluid inside the casing. -/
def sigma_inside : ℚ := 1

/-- Air region predicate.  Modelled from the spec: "air: z > 0". -/
def inAir (p : Point) : Prop := 0 < p.z

/-- Casing-wall region predicate.  Modelled from the spec: "casing wall:
within casing radial band and depth range", with the inclusive/exclusive
convention `casing_inner_radius ≤ r < casing_outer_radius`. -/
def inCasingWall (g : CasingGeometry) (p : Point) : Prop :=
  g.casing_inner_radius ≤ p.r ∧ p.r < g.casing_outer_radius ∧
    g.casing_bottom_z ≤ p.z ∧ p.z ≤ g.casing_top_z

/-- Casing-interior region predicate.  Modelled from the spec: "casing
interior: radius < inner radius and depth range". -/
def inCasingInterior (g : CasingGeometry) (p : Point) : Prop :=
  p.r < g.casing_inner_radius ∧ g.casing_bottom_z ≤ p.z ∧ p.z ≤ g.casing_top_z

/-- Background region predicate.  Modelled from the spec: "background
formation: everything else". -/
def inBackground (g : CasingGeometry) (p : Point) : Prop :=
  ¬ inAir p ∧ ¬ inCasingWall g p ∧ ¬ inCasingInterior g p

instance (p : Point) : Decidable (inAir p) := by unfold inAir; infer_instance

instance (g : CasingGeometry) (p : Point) : Decidable (inCasingWall g p) := by
  unfold inCasingWall; infer_instance

instance (g : CasingGeometry) (p : Point) : Decidable (inCasingInterior g p) := by
  unfold inCasingInterior; infer_instance

instance (g : CasingGeometry) (p : Point) : Decidable (inBackground g p) := by
  unfold inBackground; infer_instance

/-- The defining predicate of each region, read off the spec's data model. -/
def regionPred (g : CasingGeometry) : Region → Point → Prop
  | Region.Air, p => inAir p
  | Region.CasingWall, p => inCasingWall g p
  | Region.CasingInterior, p => inCasingInterior g p
  | Region.Background, p => inBackground g p

/-- Modelled from the spec: `region_of(point) -> Region`, the point
classifier of the ConductivityModelBuilder.  The classification itself is
performed by the external `casingSimulations` library (`model.sigma`,
`model.ind_casing`) and is not part of `src/`; the spec fixes the four
region predicates and a single consistent boundary convention. -/
def region_of (g : CasingGeometry) (p : Point) : Region :=
  if 0 < p.z then Region.Air
  else if g.casing_inner_radius ≤ p.r ∧ p.r < g.casing_outer_radius ∧
      g.casing_bottom_z ≤ p.z ∧ p.z ≤ g.casing_top_z then Region.CasingWall
  else if p.r < g.casing_inner_radius ∧ g.casing_bottom_z ≤ p.z ∧
      p.z ≤ g.casing_top_z then Region.CasingInterior
  else Region.Background

/-- Modelled from the spec: `conductivity(point)` returns the scalar
assigned to `region_of(point)`; the source computes this through the
external `model.sigma(mesh)`. -/
def conductivity (g : CasingGeometry) (a : ConductivityAssignment)
    (p : Point) : ℚ :=
  match region_of g p with
  | Region.Air => a.sigma_air
  | Region.CasingWall => a.sigma_casing
  | Region.CasingInterior => a.sigma_inside
  | Region.Background => a.sigma_back

/-- Modelled from the spec: `model.ind_casing(mesh)` (external
`casingSimulations` library) marks the cell centers classified as casing
wall. -/
def ind_casing (g : CasingGeometry) (p : Point) : Bool :=
  decide (region_of g p = Region.CasingWall)

/-- `np.array(l).max()` for a nonempty flattened array of rationals (the
default for the empty list is never reached by the embedded code, which
always flattens a list containing the current length-2 gap). -/
def npMax (l : List ℚ) : ℚ := l.foldl max (l.head?.getD 0)

/-- `np.array(l).min()` for a nonempty flattened array of rationals. -/
def npMin (l : List ℚ) : ℚ := l.foldl min (l.head?.getD 0)

/-- The boolean mask `indices_gap` computed by one iteration of the loop in
`create_gaps_model`:
`model.ind_casing(mesh) & (gridCC_z <= gap.max()) & (gridCC_z >= gap.min())`
where — as in the source — `gap = np.array(gaps)` is built from the WHOLE
gaps list, so `gap.max()`/`gap.min()` range over every bound of every gap. -/
def indicesGap (indCasing : Point → Bool) (gapsAll : List (List ℚ))
    (p : Point) : Bool :=
  indCasing p && decide (p.z ≤ npMax gapsAll.flatten) &&
    decide (npMin gapsAll.flatten ≤ p.z)

/-- The numpy masked assignment `sigma_gaps[mask] = v`, element by element
along the cell-center order. -/
def maskWrite (mask : Point → Bool) (v : ℚ) (points : List Point)
    (field : List ℚ) : List ℚ :=
  List.zipWith (fun p x => if mask p then v else x) points field

/-- The `for gap in gaps:` loop of `create_gaps_model`: each gap is first
checked to have exactly two entries (otherwise the code raises), then the
working copy is overwritten at the masked indices.  `gapsAll` is the full
gaps list captured by the source line `gap = np.array(gaps)`. -/
def gapsLoop (indCasing : Point → Bool) (points : List Point)
    (gapsAll : List (List ℚ)) (sigma_gap : ℚ) :
    List (List ℚ) → List ℚ → Except String (List ℚ)
  | [], sigma_gaps => Except.ok sigma_gaps
  | gap :: rest, sigma_gaps =>
    if gap.length ≠ 2 then
      Except.error "Gaps must be length 2, the provided input is not"
    else
      gapsLoop indCasing points gapsAll sigma_gap rest
        (maskWrite (indicesGap indCasing gapsAll) sigma_gap points sigma_gaps)

/-- Embedding of `create_gaps_model(gaps, sigma_gap)` from the notebook.
`indCasing` stands for `model.ind_casing(mesh)`, `points` for the cell
centers `mesh.gridCC`, and `sigma` for the global base conductivity field
the function closes over.  The function copies `sigma`
(`sigma_gaps = sigma.copy()`), runs the gap loop on the copy, and returns
the copy; the first component of the result is the global `sigma` after
the call (the body never assigns to it), the second the returned field or
the raised exception. -/
def create_gaps_model (indCasing : Point → Bool) (points : List Point)
    (sigma : List ℚ) (gaps : List (List ℚ)) (sigma_gap : ℚ) :
    List ℚ × Except String (List ℚ) :=
  (sigma, gapsLoop indCasing points gaps sigma_gap gaps sigma)

/-- `create_gaps_model(gaps)` with the `sigma_gap` argument omitted: the
Python default is `sigma_gap=sigma_inside`. -/
def create_gaps_model_default (indCasing : Point → Bool) (points : List Point)
    (sigma : List ℚ) (gaps : List (List ℚ)) :
    List ℚ × Except String (List ℚ) :=
  create_gaps_model indCasing points sigma gaps sigma_inside

/-- The concrete casing geometry of the notebook configuration:
`casing_diameter = 0.1`, `casing_t = 0.01`, `casing_l = 1000`, hence inner
radius `0.04`, outer radius `0.05`, depth range `[-1000, 0]`. -/
def g0 : CasingGeometry := ⟨mkRat 1 25, mkRat 1 20, 0, -1000⟩

/-- The notebook's conductivity assignment. -/
def a0 : ConductivityAssignment :=
  ⟨sigma_air, sigma_casing, sigma_inside, sigma_back⟩

/-- A small concrete cell-center list: two casing-wall samples (at depths
802 m and 850 m, radius 0.045 = center of the wall) and one background
sample (radius 0.2). -/
def points0 : List Point :=
  [⟨mkRat 9 200, -802⟩, ⟨mkRat 9 200, -850⟩, ⟨mkRat 1 5, -850⟩]

/-- The intact base field on `points0`. -/
def base0 : List ℚ := points0.map (conductivity g0 a0)

/-! ### Helper lemmas about the gap loop -/

lemma maskWrite_length (mask : Point → Bool) (v : ℚ) (points : List Point)
    (field : List ℚ) :
    (maskWrite mask v points field).length = min points.length field.length := by
  simp [maskWrite]

lemma maskWrite_get (mask : Point → Bool) (v : ℚ) (points : List Point)
    (field : List ℚ) (i : ℕ) (h : i < (maskWrite mask v points field).length)
    (hp : i < points.length) (hf : i < field.length) :
    (maskWrite mask v points field).get ⟨i, h⟩ =
      if mask (points.get ⟨i, hp⟩) then v else field.get ⟨i, hf⟩ := by
  simp [maskWrite, List.getElem_zipWith]

/-- Characterization of a successful run of the gap loop: the result has
the length of the working copy, and each entry is either the original
entry or `sigma_gap` written at a masked index. -/
lemma gapsLoop_ok_spec (indCasing : Point → Bool) (points : List Point)
    (gapsAll : List (List ℚ)) (sigma_gap : ℚ) :
    ∀ (l : List (List ℚ)) (f out : List ℚ),
      gapsLoop indCasing points gapsAll sigma_gap l f = Except.ok out →
      f.length = points.length →
      out.length = f.length ∧
        ∀ (i : ℕ) (hi : i < points.length) (ho : i < out.length)
          (hf : i < f.length),
          out.get ⟨i, ho⟩ = f.get ⟨i, hf⟩ ∨
            (indicesGap indCasing gapsAll (points.get ⟨i, hi⟩) = true ∧
              out.get ⟨i, ho⟩ = sigma_gap)
  | [], f, out, hok, hlen => by
      simp only [gapsLoop] at hok
      cases hok
      exact ⟨rfl, fun i hi ho hf => Or.inl rfl⟩
  | gap :: rest, f, out, hok, hlen => by
      simp only [gapsLoop] at hok
      by_cases hg : gap.length ≠ 2
      · simp [hg] at hok
      · simp only [hg, if_false] at hok
        set f2 := maskWrite (indicesGap indCasing gapsAll) sigma_gap points f
          with hf2
        have hlen2 : f2.length = points.length := by
          rw [hf2, maskWrite_length, hlen, Nat.min_self]
        obtain ⟨ihlen, ihget⟩ :=
          gapsLoop_ok_spec indCasing points gapsAll sigma_gap rest f2 out hok
            hlen2
        refine ⟨by rw [ihlen, hlen2, hlen], ?_⟩
        intro i hi ho hf
        have hif2 : i < f2.length := by rw [hlen2]; exact hi
        rcases ihget i hi ho hif2 with h | h
        · have hval := maskWrite_get (indicesGap indCasing gapsAll) sigma_gap
            points f i hif2 hi hf
          by_cases hm :
              indicesGap indCasing gapsAll (points.get ⟨i, hi⟩) = true
          · refine Or.inr ⟨hm, ?_⟩
            rw [if_pos hm] at hval
            rw [h]
            exact hval
          · refine Or.inl ?_
            rw [if_neg hm] at hval
            rw [h]
            exact hval
        · exact Or.inr h

/-- The gap loop fails whenever the remaining list contains a gap whose
length is not 2. -/
lemma gapsLoop_error_of_mem (indCasing : Point → Bool) (points : List Point)
    (gapsAll : List (List ℚ)) (sigma_gap : ℚ) :
    ∀ (l : List (List ℚ)) (f : List ℚ) (gap : List ℚ),
      gap ∈ l → gap.length ≠ 2 →
      ∃ msg, gapsLoop indCasing points gapsAll sigma_gap l f = Except.error msg
  | [], f, gap, hmem, hlen => absurd hmem (List.not_mem_nil gap)
  | g :: rest, f, gap, hmem, hlen => by
      by_cases hg : g.length ≠ 2
      · exact ⟨"Gaps must be length 2, the provided input is not", by
          simp [gapsLoop, hg]⟩
      · rcases List.mem_cons.mp hmem with h | h
        · subst h; exact absurd hlen (by simpa using hg)
        · obtain ⟨msg, hmsg⟩ :=
            gapsLoop_error_of_mem indCasing points gapsAll sigma_gap rest
              (maskWrite (indicesGap indCasing gapsAll) sigma_gap points f)
              gap h hlen
          exact ⟨msg, by simp [gapsLoop, hg, hmsg]⟩

/-- Decidable equality on the result type of the embedded builder, used to
evaluate concrete runs inside proofs. -/
instance : DecidableEq (Except String (List ℚ)) :=
  fun a b => match a, b with
  | Except.ok x, Except.ok y => decidable_of_iff (x = y) (by simp)
  | Except.error x, Except.error y => decidable_of_iff (x = y) (by simp)
  | Except.ok _, Except.error _ => isFalse (by simp)
  | Except.error _, Except.ok _ => isFalse (by simp)

/-! ### Claim theorems -/

/-- C1.  The claim says `create_gaps_model` overrides exactly the
casing-wall samples whose depth lies in some gap's own interval, so that
for two disjoint gaps the casing-wall samples strictly between them keep
their base value.  The code violates this: with the documented example
`gaps = [(-800, -805), (-900, -905)]` the loop builds its mask from
`np.array(gaps)` — the whole list — so the casing-wall sample at depth
`z = -850`, which lies in neither gap's interval, is nevertheless
overwritten with `sigma_gap = 1` instead of keeping its base value
`sigma_casing = 1e-10`. -/
theorem c1_between_disjoint_gaps_overwritten :
    ¬ ((-805 : ℚ) ≤ -850 ∧ (-850 : ℚ) ≤ -800) ∧
    ¬ ((-905 : ℚ) ≤ -850 ∧ (-850 : ℚ) ≤ -900) ∧
    region_of g0 ⟨mkRat 9 200, -850⟩ = Region.CasingWall ∧
    base0 = [sigma_casing, sigma_casing, sigma_back] ∧
    (create_gaps_model (ind_casing g0) points0 base0
        [[-800, -805], [-900, -905]] 1).2 =
      Except.ok [1, 1, sigma_back] ∧
    (1 : ℚ) ≠ sigma_casing := by
  refine ⟨by decide, by decide, by decide, by decide, by decide, by decide⟩

/-- C2 (counterexample).  The claim says a gap whose first bound exceeds
its second fails with an `InvalidGap` error.  The code accepts the
notebook's own example `gaps = [(-800, -805)]` (first bound `-800` greater
than second bound `-805`) and returns a field, overriding the casing-wall
sample at `z = -802`. -/
theorem c2_counterexample :
    (-805 : ℚ) < -800 ∧
    (create_gaps_model (ind_casing g0) points0 base0 [[-800, -805]] 1).2 =
      Except.ok [1, sigma_casing, sigma_back] := by
  exact ⟨by decide, by decide⟩

/-- C2 (amended).  Supplying a gap with reversed bounds does not fail:
`create_gaps_model` silently normalizes the interval through
`gap.max()`/`gap.min()`, so a call on `[(a, b)]` succeeds and returns
exactly what the call on `[(b, a)]` returns. -/
theorem c2_reversed_bounds_normalized (indCasing : Point → Bool)
    (points : List Point) (sigma : List ℚ) (a b sigma_gap : ℚ) :
    create_gaps_model indCasing points sigma [[a, b]] sigma_gap =
      create_gaps_model indCasing points sigma [[b, a]] sigma_gap ∧
    ∃ out, (create_gaps_model indCasing points sigma [[a, b]] sigma_gap).2 =
      Except.ok out := by
  have hmax : npMax [a, b] = npMax [b, a] := by
    simp [npMax]
    exact max_comm a b
  have hmin : npMin [a, b] = npMin [b, a] := by
    simp [npMin]
    exact min_comm a b
  have hmask : indicesGap indCasing [[a, b]] = indicesGap indCasing [[b, a]] := by
    funext p
    simp only [indicesGap, List.flatten, List.append_nil, hmax, hmin]
  constructor
  · simp [create_gaps_model, gapsLoop, hmask]
  · exact ⟨maskWrite (indicesGap indCasing [[a, b]]) sigma_gap points sigma,
      by simp [create_gaps_model, gapsLoop]⟩

/-- C3 (counterexample).  The claim's concrete scenario supplies the gaps
as triples carrying per-gap override conductivities,
`[(-810, -795, sigma=1), (-805, -800, sigma=2)]`.  `create_gaps_model` has
no per-gap override: fed these length-3 tuples it raises the length check
and returns no field at all, so no point ends with value `2`. -/
theorem c3_counterexample :
    (create_gaps_model_default (ind_casing g0) points0 base0
        [[-810, -795, 1], [-805, -800, 2]]).2 =
      Except.error "Gaps must be length 2, the provided input is not" := by
  decide

/-- C3 (amended).  One call of `create_gaps_model` carries a single
override conductivity, so overlapping gaps must be supplied as plain pairs
and every overridden sample receives that one value: with
`gaps = [(-810, -795), (-805, -800)]` and `sigma_gap = 2`, the casing-wall
sample at `z = -802` — contained in both intervals — ends with value `2`
(trivially last-write-wins, as every write stores the same value). -/
theorem c3_overlapping_gaps_single_override :
    ((-810 : ℚ) ≤ -802 ∧ (-802 : ℚ) ≤ -795) ∧
    ((-805 : ℚ) ≤ -802 ∧ (-802 : ℚ) ≤ -800) ∧
    region_of g0 ⟨mkRat 9 200, -802⟩ = Region.CasingWall ∧
    (create_gaps_model (ind_casing g0) points0 base0
        [[-810, -795], [-805, -800]] 2).2 =
      Except.ok [2, sigma_casing, sigma_back] := by
  refine ⟨by decide, by decide, by decide, by decide⟩

/-- C6.  `create_gaps_model` with an empty gap list is the identity: the
loop never runs, the base field is left untouched, and the returned field
is the (copy of the) base field itself. -/
theorem c6_empty_gaps_identity (indCasing : Point → Bool)
    (points : List Point) (sigma : List ℚ) (sigma_gap : ℚ) :
    create_gaps_model indCasing points sigma [] sigma_gap =
      (sigma, Except.ok sigma) := rfl

/-- C4.  `create_gaps_model` never modifies a sample that is not
classified `CasingWall`: the loop mask conjoins `model.ind_casing(mesh)`,
so air, casing-interior and background samples keep their base value even
when their depth lies inside a gap interval. -/
theorem c4_non_wall_samples_unchanged (g : CasingGeometry)
    (points : List Point) (sigma : List ℚ) (gaps : List (List ℚ))
    (sigma_gap : ℚ) (out : List ℚ) (i : ℕ)
    (hlen : sigma.length = points.length)
    (hok : (create_gaps_model (ind_casing g) points sigma gaps sigma_gap).2 =
      Except.ok out)
    (hi : i < points.length) (ho : i < out.length) (hs : i < sigma.length)
    (hreg : region_of g (points.get ⟨i, hi⟩) ≠ Region.CasingWall) :
    out.get ⟨i, ho⟩ = sigma.get ⟨i, hs⟩ := by
  have hspec :=
    gapsLoop_ok_spec (ind_casing g) points gaps sigma_gap gaps sigma out hok
      hlen
  rcases hspec.2 i hi ho hs with h | ⟨hm, _⟩
  · exact h
  · exfalso
    simp only [indicesGap, Bool.and_eq_true] at hm
    have hwall := hm.1.1
    simp only [ind_casing, decide_eq_true_eq] at hwall
    exact hreg hwall

/-- C4 witness: the background sample of `points0` (radius `0.2`, depth
`-850`) is unchanged by the gap run `[(-800, -805)]`. -/
theorem c4_witness :
    ([(1 : ℚ), sigma_casing, sigma_back] : List ℚ).get ⟨2, by decide⟩ =
      base0.get ⟨2, by decide⟩ :=
  c4_non_wall_samples_unchanged g0 points0 base0 [[-800, -805]] 1
    [(1 : ℚ), sigma_casing, sigma_back] 2 (by decide) (by decide) (by decide)
    (by decide) (by decide) (by decide)

/-- C5.  `create_gaps_model` never mutates the base field: the global
`sigma` after the call is the `sigma` before it (the function works on
`sigma.copy()`), and a successfully returned field has the same length
(hence the same sample order) as the base field. -/
theorem c5_base_preserved (indCasing : Point → Bool) (points : List Point)
    (sigma : List ℚ) (gaps : List (List ℚ)) (sigma_gap : ℚ) (out : List ℚ)
    (hlen : sigma.length = points.length)
    (hok : (create_gaps_model indCasing points sigma gaps sigma_gap).2 =
      Except.ok out) :
    (create_gaps_model indCasing points sigma gaps sigma_gap).1 = sigma ∧
      out.length = sigma.length := by
  refine ⟨rfl, ?_⟩
  exact (gapsLoop_ok_spec indCasing points gaps sigma_gap gaps sigma out hok
    hlen).1

/-- C5 witness: a concrete gap run returns the base field intact in the
first component and a same-length field in the second. -/
theorem c5_witness :
    (create_gaps_model (ind_casing g0) points0 base0 [[-800, -805]] 1).1 =
      base0 ∧
    ([(1 : ℚ), sigma_casing, sigma_back] : List ℚ).length = base0.length :=
  c5_base_preserved (ind_casing g0) points0 base0 [[-800, -805]] 1
    [(1 : ℚ), sigma_casing, sigma_back] (by decide) (by decide)

/-- C9.  Whenever some entry of the gap sequence does not have exactly two
elements, `create_gaps_model` raises (the embedded run returns an error,
not a field) and the base field is untouched: the error is atomic for the
caller because only the private copy was ever written. -/
theorem c9_malformed_gap_raises (indCasing : Point → Bool)
    (points : List Point) (sigma : List ℚ) (gaps : List (List ℚ))
    (sigma_gap : ℚ) (gap : List ℚ) (hmem : gap ∈ gaps)
    (hbad : gap.length ≠ 2) :
    (∃ msg, (create_gaps_model indCasing points sigma gaps sigma_gap).2 =
      Except.error msg) ∧
    (create_gaps_model indCasing points sigma gaps sigma_gap).1 = sigma := by
  refine ⟨?_, rfl⟩
  exact gapsLoop_error_of_mem indCasing points gaps sigma_gap gaps sigma gap
    hmem hbad

/-- C9 witness: a length-3 gap tuple makes the concrete run fail and
leaves the base field unchanged. -/
theorem c9_witness :
    (∃ msg, (create_gaps_model (ind_casing g0) points0 base0
      [[-810, -795, 1]] 1).2 = Except.error msg) ∧
    (create_gaps_model (ind_casing g0) points0 base0 [[-810, -795, 1]] 1).1 =
      base0 :=
  c9_malformed_gap_raises (ind_casing g0) points0 base0 [[-810, -795, 1]] 1
    [-810, -795, 1] (by decide) (by decide)

/-- C10.  One call of `create_gaps_model` carries a single override
conductivity `sigma_gap` — every sample it changes receives that one value
— and omitting the argument defaults it to `sigma_inside`, the fluid
conductivity inside the casing, which is `1` S/m in this configuration. -/
theorem c10_single_override_and_default (indCasing : Point → Bool)
    (points : List Point) (sigma : List ℚ) (gaps : List (List ℚ))
    (sigma_gap : ℚ) (out : List ℚ) (i : ℕ)
    (hlen : sigma.length = points.length)
    (hok : (create_gaps_model indCasing points sigma gaps sigma_gap).2 =
      Except.ok out)
    (hi : i < points.length) (ho : i < out.length) (hs : i < sigma.length) :
    sigma_inside = 1 ∧
    create_gaps_model_default indCasing points sigma gaps =
      create_gaps_model indCasing points sigma gaps sigma_inside ∧
    (out.get ⟨i, ho⟩ = sigma.get ⟨i, hs⟩ ∨ out.get ⟨i, ho⟩ = sigma_gap) := by
  refine ⟨rfl, rfl, ?_⟩
  rcases (gapsLoop_ok_spec indCasing points gaps sigma_gap gaps sigma out hok
    hlen).2 i hi ho hs with h | ⟨_, h⟩
  · exact Or.inl h
  · exact Or.inr h

/-- C10 witness: the overridden casing-wall sample of a concrete run
receives exactly the single override value of the call. -/
theorem c10_witness :
    sigma_inside = 1 ∧
    create_gaps_model_default (ind_casing g0) points0 base0
        [[-810, -795], [-805, -800]] =
      create_gaps_model (ind_casing g0) points0 base0
        [[-810, -795], [-805, -800]] sigma_inside ∧
    (([(2 : ℚ), sigma_casing, sigma_back] : List ℚ).get ⟨0, by decide⟩ =
        base0.get ⟨0, by decide⟩ ∨
      ([(2 : ℚ), sigma_casing, sigma_back] : List ℚ).get ⟨0, by decide⟩ = 2) :=
  c10_single_override_and_default (ind_casing g0) points0 base0
    [[-810, -795], [-805, -800]] 2 [(2 : ℚ), sigma_casing, sigma_back] 0
    (by decide) (by decide) (by decide) (by decide) (by decide)

/-- C8.  Classification and conductivity lookup are deterministic: two
runs of `region_of`, `conductivity` or `create_gaps_model` on equal inputs
with unchanged geometry and assignment configuration produce equal
results (the embedded functions read no hidden state). -/
theorem c8_two_run_determinism (g g2 : CasingGeometry)
    (a a2 : ConductivityAssignment) (p p2 : Point)
    (indCasing indCasing2 : Point → Bool) (points points2 : List Point)
    (sigma sigma2 : List ℚ) (gaps gaps2 : List (List ℚ)) (sg sg2 : ℚ)
    (hg : g = g2) (ha : a = a2) (hp : p = p2) (hind : indCasing = indCasing2)
    (hpts : points = points2) (hsig : sigma = sigma2) (hgaps : gaps = gaps2)
    (hsg : sg = sg2) :
    region_of g p = region_of g2 p2 ∧
    conductivity g a p = conductivity g2 a2 p2 ∧
    create_gaps_model indCasing points sigma gaps sg =
      create_gaps_model indCasing2 points2 sigma2 gaps2 sg2 := by
  subst hg ha hp hind hpts hsig hgaps hsg
  exact ⟨rfl, rfl, rfl⟩

/-- C8 witness: two runs on the notebook configuration coincide. -/
theorem c8_witness :
    region_of g0 ⟨mkRat 9 200, -500⟩ = region_of g0 ⟨mkRat 9 200, -500⟩ ∧
    conductivity g0 a0 ⟨mkRat 9 200, -500⟩ =
      conductivity g0 a0 ⟨mkRat 9 200, -500⟩ ∧
    create_gaps_model (ind_casing g0) points0 base0 [[-800, -805]] 1 =
      create_gaps_model (ind_casing g0) points0 base0 [[-800, -805]] 1 :=
  c8_two_run_determinism g0 g0 a0 a0 ⟨mkRat 9 200, -500⟩ ⟨mkRat 9 200, -500⟩
    (ind_casing g0) (ind_casing g0) points0 points0 base0 base0
    [[-800, -805]] [[-800, -805]] 1 1 rfl rfl rfl rfl rfl rfl rfl rfl

/-- C7.  With the casing top at or below the surface (`casing_top_z ≤ 0`,
as in the spec's "casing extends in depth from 0 to -casing_l"), region
classification is a total partition: every point satisfies the defining
predicate of exactly one of the four regions, `region_of` returns that
region, and every point with `z > 0` is classified `Air` regardless of
radius. -/
theorem c7_region_partition (g : CasingGeometry) (p : Point)
    (hTop : g.casing_top_z ≤ 0) :
    (∃! R : Region, regionPred g R p) ∧
    regionPred g (region_of g p) p ∧
    (0 < p.z → region_of g p = Region.Air) := by
  have hAW : 0 < p.z → ¬ inCasingWall g p := fun h hw =>
    absurd h (not_lt.mpr (hw.2.2.2.trans hTop))
  have hAI : 0 < p.z → ¬ inCasingInterior g p := fun h hi =>
    absurd h (not_lt.mpr (hi.2.2.trans hTop))
  have hWI : inCasingWall g p → ¬ inCasingInterior g p := fun hw hi =>
    absurd hw.1 (not_le.mpr hi.1)
  by_cases h1 : 0 < p.z
  · have hro : region_of g p = Region.Air := by
      unfold region_of
      rw [if_pos h1]
    refine ⟨⟨Region.Air, h1, ?_⟩, ?_, fun _ => hro⟩
    · intro R hR
      cases R with
      | Air => rfl
      | CasingWall => exact absurd hR (hAW h1)
      | CasingInterior => exact absurd hR (hAI h1)
      | Background =>
        exact absurd h1
          (show ¬ inAir p ∧ ¬ inCasingWall g p ∧ ¬ inCasingInterior g p
            from hR).1
    · rw [hro]
      exact h1
  · by_cases h2 : inCasingWall g p
    · have h2' : g.casing_inner_radius ≤ p.r ∧ p.r < g.casing_outer_radius ∧
          g.casing_bottom_z ≤ p.z ∧ p.z ≤ g.casing_top_z := h2
      have hro : region_of g p = Region.CasingWall := by
        unfold region_of
        rw [if_neg h1, if_pos h2']
      refine ⟨⟨Region.CasingWall, h2, ?_⟩, ?_, fun hz => absurd hz h1⟩
      · intro R hR
        cases R with
        | Air => exact absurd hR h1
        | CasingWall => rfl
        | CasingInterior => exact absurd hR (hWI h2)
        | Background =>
          exact absurd h2
            (show ¬ inAir p ∧ ¬ inCasingWall g p ∧ ¬ inCasingInterior g p
              from hR).2.1
      · rw [hro]
        exact h2
    · by_cases h3 : inCasingInterior g p
      · have h2' : ¬ (g.casing_inner_radius ≤ p.r ∧
            p.r < g.casing_outer_radius ∧
            g.casing_bottom_z ≤ p.z ∧ p.z ≤ g.casing_top_z) := h2
        have h3' : p.r < g.casing_inner_radius ∧ g.casing_bottom_z ≤ p.z ∧
            p.z ≤ g.casing_top_z := h3
        have hro : region_of g p = Region.CasingInterior := by
          unfold region_of
          rw [if_neg h1, if_neg h2', if_pos h3']
        refine ⟨⟨Region.CasingInterior, h3, ?_⟩, ?_, fun hz => absurd hz h1⟩
        · intro R hR
          cases R with
          | Air => exact absurd hR h1
          | CasingWall => exact absurd h3 (hWI hR)
          | CasingInterior => rfl
          | Background =>
            exact absurd h3
              (show ¬ inAir p ∧ ¬ inCasingWall g p ∧ ¬ inCasingInterior g p
                from hR).2.2
        · rw [hro]
          exact h3
      · have h2' : ¬ (g.casing_inner_radius ≤ p.r ∧
            p.r < g.casing_outer_radius ∧
            g.casing_bottom_z ≤ p.z ∧ p.z ≤ g.casing_top_z) := h2
        have h3' : ¬ (p.r < g.casing_inner_radius ∧ g.casing_bottom_z ≤ p.z ∧
            p.z ≤ g.casing_top_z) := h3
        have hro : region_of g p = Region.Background := by
          unfold region_of
          rw [if_neg h1, if_neg h2', if_neg h3']
        have hbg : inBackground g p := ⟨h1, h2, h3⟩
        refine ⟨⟨Region.Background, hbg, ?_⟩, ?_, fun hz => absurd hz h1⟩
        · intro R hR
          cases R with
          | Air => exact absurd hR h1
          | CasingWall => exact absurd hR h2
          | CasingInterior => exact absurd hR h3
          | Background => rfl
        · rw [hro]
          exact hbg
  
/-- C7 witness: the notebook geometry has its casing top at the surface,
and the mid-casing-wall point at depth 500 m is classified. -/
theorem c7_witness :
    g0.casing_top_z ≤ 0 ∧
    ((∃! R : Region, regionPred g0 R ⟨mkRat 9 200, -500⟩) ∧
      regionPred g0 (region_of g0 ⟨mkRat 9 200, -500⟩) ⟨mkRat 9 200, -500⟩ ∧
      (0 < (⟨mkRat 9 200, -500⟩ : Point).z →
        region_of g0 ⟨mkRat 9 200, -500⟩ = Region.Air)) :=
  ⟨by decide, c7_region_partition g0 ⟨mkRat 9 200, -500⟩ (by decide)⟩
